import Mathlib

/-!
Shallow embedding of the event-management API in `src/server.js`
(Express + Firestore).  The Firestore database is modelled as a `Store`
of association lists keyed by document ids; every HTTP handler becomes a
pure function from its inputs and the current store to an
`Except HErr` result.  External collaborators (bcrypt, clocks, generated
document ids) are passed in as explicit arguments.
-/

/-- HTTP-level error outcomes used by the handlers
(`res.status(400/401/403/404/500)`). -/
inductive HErr where
  | badRequest
  | unauthorized
  | forbidden
  | notFound
  | internal
deriving DecidableEq, Repr

/-- A user document in the `users` collection (see `/auth/register`). -/
structure User where
  username : String
  email : String
  passwordHash : String
  role : String
  createdAt : String
deriving DecidableEq, Repr

/-- An event document in the `events` collection (see `POST /events`). -/
structure Event where
  title : String
  date : String
  location : String
  description : String
  creatorUid : String
  creatorName : String
  createdAt : String
deriving DecidableEq, Repr

/-- A comment document in the `events/{id}/comments` subcollection.
`rating` is `number|null`, modelled as `Option Int`; `editedAt` is only
set by the update handler. -/
structure Comment where
  uid : String
  username : String
  comment : String
  rating : Option Int
  createdAt : String
  editedAt : Option String
deriving DecidableEq, Repr

/-- An attendance document in the `events/{id}/attendees` subcollection,
keyed by the attending user's uid. -/
structure Attendee where
  uid : String
  username : String
  confirmed : Bool
  updatedAt : String
deriving DecidableEq, Repr

/-- Association-list lookup: first entry whose key matches (Firestore
`doc(k).get()`). -/
def getA {κ β : Type} [DecidableEq κ] (k : κ) (l : List (κ × β)) : Option β :=
  (l.find? (fun p => decide (p.1 = k))).map (·.2)

/-- Keyed write (Firestore `doc(k).set(v)`): the document with id `k` now
holds exactly `v`. -/
def setA {κ β : Type} [DecidableEq κ] (k : κ) (v : β) (l : List (κ × β)) : List (κ × β) :=
  (k, v) :: l.filter (fun p => decide (p.1 ≠ k))

/-- Keyed delete (Firestore `doc(k).delete()`): removes the document with
id `k`; deleting an absent document is a no-op. -/
def delA {κ β : Type} [DecidableEq κ] (k : κ) (l : List (κ × β)) : List (κ × β) :=
  l.filter (fun p => decide (p.1 ≠ k))

/-- Number of documents stored under key `k`. -/
def countKey {κ β : Type} [DecidableEq κ] (k : κ) (l : List (κ × β)) : Nat :=
  (l.filter (fun p => decide (p.1 = k))).length

theorem getA_setA_self {κ β : Type} [DecidableEq κ] (k : κ) (v : β) (l : List (κ × β)) :
    getA k (setA k v l) = some v := by
  simp [getA, setA, List.find?]

theorem countKey_setA_self {κ β : Type} [DecidableEq κ] (k : κ) (v : β) (l : List (κ × β)) :
    countKey k (setA k v l) = 1 := by
  have h : (List.filter (fun p : κ × β => decide (p.1 ≠ k)) l).filter
      (fun p : κ × β => decide (p.1 = k)) = [] := by
    rw [List.filter_filter]
    apply List.filter_eq_nil_iff.2
    intro p _
    by_cases hpk : p.1 = k <;> simp [hpk]
  simp [countKey, setA, List.filter_cons, h]

theorem getA_delA_self {κ β : Type} [DecidableEq κ] (k : κ) (l : List (κ × β)) :
    getA k (delA k l) = none := by
  simp only [getA, delA, Option.map_eq_none', List.find?_eq_none]
  intro p hp
  have := List.of_mem_filter hp
  simpa using this

theorem delA_of_absent {κ β : Type} [DecidableEq κ] (k : κ) (l : List (κ × β))
    (h : getA k l = none) : delA k l = l := by
  apply List.filter_eq_self.2
  intro p hp
  simp only [getA, Option.map_eq_none', List.find?_eq_none] at h
  have := h p hp
  simpa using this

/-- The whole Firestore database: the `users` and `events` collections,
and the per-event `comments` and `attendees` subcollections (keyed by the
pair of the parent event id and the document id). -/
structure Store where
  users : List (String × User)
  events : List (String × Event)
  comments : List ((String × String) × Comment)
  attendees : List ((String × String) × Attendee)
deriving DecidableEq, Repr

/-- Role of a user as the handlers read it:
`userDoc.exists ? userDoc.data().role : null`. -/
def roleOf (uid : String) (s : Store) : Option String :=
  (getA uid s.users).map (·.role)

/-- JavaScript truthiness of an optional string field of a JSON request
body: `undefined` and `""` are falsy. -/
def truthy : Option String → Bool
  | none => false
  | some s => !(s == "")

/-- `String.toLowerCase` modelled character by character. -/
def lowerStr (s : String) : String :=
  ⟨s.data.map Char.toLower⟩

/-- Boolean list-prefix test. -/
def isPrefixB : List Char → List Char → Bool
  | [], _ => true
  | _ :: _, [] => false
  | a :: as, b :: bs => a == b && isPrefixB as bs

/-- Boolean list-infix test (JavaScript `String.prototype.includes` on
the underlying character lists). -/
def isInfixB : List Char → List Char → Bool
  | n, [] => n.isEmpty
  | n, h :: t => isPrefixB n (h :: t) || isInfixB n t

/-- JavaScript `hay.includes(needle)`. -/
def strIncludes (hay needle : String) : Bool :=
  isInfixB needle.data hay.data

/-- One delete queued in a Firestore write batch (`db.batch()`); the
`DELETE /events/:id` handler only ever queues deletes. -/
inductive BatchOp where
  | delEvent (id : String)
  | delComment (eventId cid : String)
  | delAttendee (eventId uid : String)
deriving DecidableEq, Repr

/-- Effect of a single queued delete on the database. -/
def applyOp (s : Store) : BatchOp → Store
  | .delEvent id => { s with events := delA id s.events }
  | .delComment e c => { s with comments := delA (e, c) s.comments }
  | .delAttendee e u => { s with attendees := delA (e, u) s.attendees }

/-- `batch.commit()`: all queued operations are applied as one atomic
store transition. -/
def commitBatch (ops : List BatchOp) (s : Store) : Store :=
  ops.foldl applyOp s

/-- The deletes queued by the `DELETE /events/:id` handler: every comment
of the event, every attendee of the event, then the event document. -/
def cascadeOps (id : String) (s : Store) : List BatchOp :=
  (s.comments.filter (fun p => decide (p.1.1 = id))).map
      (fun p => BatchOp.delComment p.1.1 p.1.2)
    ++ (s.attendees.filter (fun p => decide (p.1.1 = id))).map
      (fun p => BatchOp.delAttendee p.1.1 p.1.2)
    ++ [BatchOp.delEvent id]

/-- `DELETE /events/:id`: 404 when absent, 403 unless creator or admin,
then one atomic batch commit of the cascade.  `commitOk` models whether
the store accepts the commit; on failure the batch has no effect and the
handler answers 500. -/
def deleteEvent (callerUid id : String) (commitOk : Bool) (s : Store) :
    Except HErr Store :=
  match getA id s.events with
  | none => .error .notFound
  | some ev =>
    if ev.creatorUid ≠ callerUid ∧ roleOf callerUid s ≠ some "admin" then
      .error .forbidden
    else if commitOk then .ok (commitBatch (cascadeOps id s) s)
    else .error .internal

/-- `POST /attend/:eventId/confirm`: writes the attendance document with
id `uid` under the event (`doc(uid).set({...})`), overwriting any
previous document with that id. -/
def confirmAttend (uid eventId now : String) (s : Store) : Store :=
  let username :=
    match getA uid s.users with
    | some u => u.username
    | none => "Desconocido"
  { s with attendees := setA (eventId, uid) ⟨uid, username, true, now⟩ s.attendees }

/-- `POST /attend/:eventId/cancel`: deletes the attendance document with
id `uid`; Firestore deletion of an absent document succeeds. -/
def cancelAttend (uid eventId : String) (s : Store) : Store :=
  { s with attendees := delA (eventId, uid) s.attendees }

/-- `GET /attend/:eventId/status/:uid`: `{confirmed:false}` when absent;
otherwise `{ confirmed: !!d.confirmed, ...d }` — since every stored
`confirmed` is a boolean, the spread leaves the coerced value intact, so
the response is the record together with its `confirmed` field. -/
def attendStatus (eventId uid : String) (s : Store) : Bool × Option Attendee :=
  match getA (eventId, uid) s.attendees with
  | none => (false, none)
  | some r => (r.confirmed, some r)

/-- The ratings the `GET /events/:id/rating` handler aggregates:
`snap.docs.map(d => d.data().rating).filter(Boolean)` — `null` and `0`
are falsy and dropped. -/
def ratingsOf (eventId : String) (s : Store) : List Int :=
  ((s.comments.filter (fun p => decide (p.1.1 = eventId))).map
    (fun p => p.2.rating)).filterMap
      (fun r =>
        match r with
        | none => none
        | some v => if v = 0 then none else some v)

/-- `GET /events/:id/rating`: `{average:0,count:0}` when no truthy
rating exists, otherwise the arithmetic mean and count of the truthy
ratings. -/
def averageRating (eventId : String) (s : Store) : ℚ × Nat :=
  let ratings := ratingsOf eventId s
  if ratings.length = 0 then (0, 0)
  else ((ratings.map (fun r => (r : ℚ))).sum / (ratings.length : ℚ), ratings.length)

/-- `PUT /events/:id/comments/:cid`: 404 when absent; 403 unless the
caller is the comment's author or an admin; updates the truthy `comment`
field, the `rating` field whenever it was present in the body
(`rating !== undefined`, so `null` and `0` do overwrite), and stamps
`editedAt`. -/
def updateComment (callerUid eventId cid : String) (commentB : Option String)
    (ratingB : Option (Option Int)) (now : String) (s : Store) :
    Except HErr (Comment × Store) :=
  match getA (eventId, cid) s.comments with
  | none => .error .notFound
  | some c =>
    if c.uid ≠ callerUid ∧ roleOf callerUid s ≠ some "admin" then
      .error .forbidden
    else
      let c1 := if truthy commentB then { c with comment := commentB.getD "" } else c
      let c2 :=
        match ratingB with
        | none => c1
        | some r => { c1 with rating := r }
      let c3 := { c2 with editedAt := some now }
      .ok (c3, { s with comments := setA (eventId, cid) c3 s.comments })

/-- `DELETE /events/:id/comments/:cid`: 404 when absent; 403 unless the
caller is the comment's author or an admin; otherwise deletes it. -/
def deleteComment (callerUid eventId cid : String) (s : Store) :
    Except HErr Store :=
  match getA (eventId, cid) s.comments with
  | none => .error .notFound
  | some c =>
    if c.uid ≠ callerUid ∧ roleOf callerUid s ≠ some "admin" then
      .error .forbidden
    else .ok { s with comments := delA (eventId, cid) s.comments }

/-- `PUT /users/:uid/password`.  bcrypt is an external collaborator, so
the hash-compare and hash-create operations are explicit arguments.  The
caller/target check comes first and never consults the caller's role. -/
def changePassword (compareH : String → String → Bool) (hashF : String → String)
    (callerUid targetUid : String) (oldPassword newPassword : Option String)
    (s : Store) : Except HErr Store :=
  if callerUid ≠ targetUid then .error .forbidden
  else if ¬(truthy oldPassword ∧ truthy newPassword) then .error .badRequest
  else
    match getA targetUid s.users with
    | none => .error .notFound
    | some u =>
      if ¬compareH (oldPassword.getD "") u.passwordHash then .error .unauthorized
      else
        let u2 := { u with passwordHash := hashF (newPassword.getD "") }
        .ok { s with users := setA targetUid u2 s.users }

/-- `PUT /events/:id`: 404 when absent; 403 unless creator or admin;
overwrites exactly the truthy fields among title/date/location/
description (`if (title) update.title = title; ...`). -/
def updateEvent (callerUid id : String)
    (title date location description : Option String) (s : Store) :
    Except HErr (Event × Store) :=
  match getA id s.events with
  | none => .error .notFound
  | some ev =>
    if ev.creatorUid ≠ callerUid ∧ roleOf callerUid s ≠ some "admin" then
      .error .forbidden
    else
      let e1 := if truthy title then { ev with title := title.getD "" } else ev
      let e2 := if truthy date then { e1 with date := date.getD "" } else e1
      let e3 := if truthy location then { e2 with location := location.getD "" } else e2
      let e4 :=
        if truthy description then { e3 with description := description.getD "" } else e3
      .ok (e4, { s with events := setA id e4 s.events })

/-- `GET /events/search?q=`: lowercases `q` (missing → `""`), answers 400
when it is empty, otherwise loads the whole collection and keeps the
events whose lowercased title or description contains it. -/
def searchEvents (q : Option String) (s : Store) :
    Except HErr (List (String × Event)) :=
  let ql := lowerStr (q.getD "")
  if ql = "" then .error .badRequest
  else
    .ok (s.events.filter (fun p =>
      strIncludes (lowerStr p.2.title) ql || strIncludes (lowerStr p.2.description) ql))

/-- The public projection returned by `GET /users/:uid`: the handler
copies the public fields one by one and never touches `passwordHash`. -/
structure PublicProfile where
  uid : String
  username : String
  email : String
  role : String
  createdAt : String
deriving DecidableEq, Repr

/-- `GET /users/:uid`. -/
def getPublicProfile (uid : String) (s : Store) : Except HErr PublicProfile :=
  match getA uid s.users with
  | none => .error .notFound
  | some u =>
    .ok ⟨uid, u.username, u.email, if u.role = "" then "user" else u.role, u.createdAt⟩

/-- An entry of the `GET /admin/users` response:
`{ uid: d.id, ...d.data() }` spreads the full stored document, so the
`passwordHash` field is part of the payload. -/
structure AdminUserView where
  uid : String
  username : String
  email : String
  passwordHash : String
  role : String
  createdAt : String
deriving DecidableEq, Repr

/-- `GET /admin/users` (behind the `requireAdmin` middleware). -/
def adminListUsers (callerUid : String) (s : Store) :
    Except HErr (List AdminUserView) :=
  if roleOf callerUid s ≠ some "admin" then .error .forbidden
  else
    .ok (s.users.map (fun p =>
      ⟨p.1, p.2.username, p.2.email, p.2.passwordHash, p.2.role, p.2.createdAt⟩))

/-- `POST /events`: validates the five body fields for truthiness, looks
up the body's `creatorUid` in `users` (404 when absent), snapshots
`creatorName` from that user's username (`|| "Desconocido"`), and adds
the event.  The authenticated caller (`callerUid`, from the token) is
never consulted. -/
def createEvent (callerUid : String)
    (title date location description creatorUid : Option String)
    (now newId : String) (s : Store) : Except HErr ((String × Event) × Store) :=
  if ¬(truthy title ∧ truthy date ∧ truthy location ∧ truthy description ∧
      truthy creatorUid) then .error .badRequest
  else
    match getA (creatorUid.getD "") s.users with
    | none => .error .notFound
    | some u =>
      let creatorName := if u.username = "" then "Desconocido" else u.username
      let ev : Event :=
        ⟨title.getD "", date.getD "", location.getD "", description.getD "",
          creatorUid.getD "", creatorName, now⟩
      .ok ((newId, ev), { s with events := (newId, ev) :: s.events })

theorem commitBatch_cons (op : BatchOp) (ops : List BatchOp) (s : Store) :
    commitBatch (op :: ops) s = commitBatch ops (applyOp s op) := by
  simp [commitBatch]

theorem commitBatch_comments_mem (ops : List BatchOp) (s : Store)
    (p : (String × String) × Comment) (hp : p ∈ (commitBatch ops s).comments) :
    p ∈ s.comments ∧ ∀ e c, BatchOp.delComment e c ∈ ops → p.1 ≠ (e, c) := by
  induction ops generalizing s with
  | nil =>
    refine ⟨hp, ?_⟩
    intro e c h
    cases h
  | cons op rest ih =>
    rw [commitBatch_cons] at hp
    obtain ⟨h1, h2⟩ := ih (applyOp s op) hp
    cases op with
    | delEvent id =>
      refine ⟨h1, ?_⟩
      intro e c h
      rcases List.mem_cons.1 h with h | h
      · cases h
      · exact h2 e c h
    | delComment e' c' =>
      simp only [applyOp, delA, List.mem_filter] at h1
      refine ⟨h1.1, ?_⟩
      intro e c h
      rcases List.mem_cons.1 h with h | h
      · cases h
        simpa using h1.2
      · exact h2 e c h
    | delAttendee e' u' =>
      refine ⟨h1, ?_⟩
      intro e c h
      rcases List.mem_cons.1 h with h | h
      · cases h
      · exact h2 e c h

theorem commitBatch_attendees_mem (ops : List BatchOp) (s : Store)
    (p : (String × String) × Attendee) (hp : p ∈ (commitBatch ops s).attendees) :
    p ∈ s.attendees ∧ ∀ e u, BatchOp.delAttendee e u ∈ ops → p.1 ≠ (e, u) := by
  induction ops generalizing s with
  | nil =>
    refine ⟨hp, ?_⟩
    intro e u h
    cases h
  | cons op rest ih =>
    rw [commitBatch_cons] at hp
    obtain ⟨h1, h2⟩ := ih (applyOp s op) hp
    cases op with
    | delEvent id =>
      refine ⟨h1, ?_⟩
      intro e u h
      rcases List.mem_cons.1 h with h | h
      · cases h
      · exact h2 e u h
    | delComment e' c' =>
      refine ⟨h1, ?_⟩
      intro e u h
      rcases List.mem_cons.1 h with h | h
      · cases h
      · exact h2 e u h
    | delAttendee e' u' =>
      simp only [applyOp, delA, List.mem_filter] at h1
      refine ⟨h1.1, ?_⟩
      intro e u h
      rcases List.mem_cons.1 h with h | h
      · cases h
        simpa using h1.2
      · exact h2 e u h

theorem commitBatch_events_mem (ops : List BatchOp) (s : Store)
    (p : String × Event) (hp : p ∈ (commitBatch ops s).events) :
    p ∈ s.events ∧ ∀ id, BatchOp.delEvent id ∈ ops → p.1 ≠ id := by
  induction ops generalizing s with
  | nil =>
    refine ⟨hp, ?_⟩
    intro id h
    cases h
  | cons op rest ih =>
    rw [commitBatch_cons] at hp
    obtain ⟨h1, h2⟩ := ih (applyOp s op) hp
    cases op with
    | delEvent id' =>
      simp only [applyOp, delA, List.mem_filter] at h1
      refine ⟨h1.1, ?_⟩
      intro id h
      rcases List.mem_cons.1 h with h | h
      · cases h
        simpa using h1.2
      · exact h2 id h
    | delComment e' c' =>
      refine ⟨h1, ?_⟩
      intro id h
      rcases List.mem_cons.1 h with h | h
      · cases h
      · exact h2 id h
    | delAttendee e' u' =>
      refine ⟨h1, ?_⟩
      intro id h
      rcases List.mem_cons.1 h with h | h
      · cases h
      · exact h2 id h

theorem delComment_mem_cascadeOps (id : String) (s : Store)
    (p : (String × String) × Comment) (hp : p ∈ s.comments) (he : p.1.1 = id) :
    BatchOp.delComment p.1.1 p.1.2 ∈ cascadeOps id s := by
  unfold cascadeOps
  have hpf : p ∈ s.comments.filter (fun q => decide (q.1.1 = id)) :=
    List.mem_filter.2 ⟨hp, by simp [he]⟩
  exact List.mem_append.2 (Or.inl (List.mem_append.2 (Or.inl
    (List.mem_map.2 ⟨p, hpf, rfl⟩))))

theorem delAttendee_mem_cascadeOps (id : String) (s : Store)
    (p : (String × String) × Attendee) (hp : p ∈ s.attendees) (he : p.1.1 = id) :
    BatchOp.delAttendee p.1.1 p.1.2 ∈ cascadeOps id s := by
  unfold cascadeOps
  have hpf : p ∈ s.attendees.filter (fun q => decide (q.1.1 = id)) :=
    List.mem_filter.2 ⟨hp, by simp [he]⟩
  exact List.mem_append.2 (Or.inl (List.mem_append.2 (Or.inr
    (List.mem_map.2 ⟨p, hpf, rfl⟩))))

theorem delEvent_mem_cascadeOps (id : String) (s : Store) :
    BatchOp.delEvent id ∈ cascadeOps id s := by
  unfold cascadeOps
  exact List.mem_append.2 (Or.inr (List.mem_singleton.2 rfl))

/-- C1: a successful `delete(callerId, e)` is exactly one atomic batch
commit (`s' = commitBatch (cascadeOps e s) s` is the only successful
outcome), and in the committed state the event document, every comment
under `e` and every attendance record under `e` are gone.  Every failure
(absent event, authorization, rejected commit with `commitOk = false`)
returns an error without producing any store, so no partial cascade is
ever observable. -/
theorem deleteEvent_cascade_atomic (callerUid e : String) (commitOk : Bool)
    (s s' : Store) (h : deleteEvent callerUid e commitOk s = .ok s') :
    s' = commitBatch (cascadeOps e s) s ∧
    getA e s'.events = none ∧
    s'.comments.filter (fun p => decide (p.1.1 = e)) = [] ∧
    s'.attendees.filter (fun p => decide (p.1.1 = e)) = [] := by
  have hs' : s' = commitBatch (cascadeOps e s) s := by
    unfold deleteEvent at h
    split at h
    · simp at h
    · split at h
      · simp at h
      · split at h
        · exact (Except.ok.inj h).symm
        · simp at h
  subst hs'
  refine ⟨rfl, ?_, ?_, ?_⟩
  · simp only [getA, Option.map_eq_none', List.find?_eq_none]
    intro p hp
    obtain ⟨_, h2⟩ := commitBatch_events_mem _ _ p hp
    simpa using h2 e (delEvent_mem_cascadeOps e s)
  · apply List.filter_eq_nil_iff.2
    intro p hp
    obtain ⟨h1, h2⟩ := commitBatch_comments_mem _ _ p hp
    simp only [decide_eq_true_eq]
    intro he
    exact h2 p.1.1 p.1.2 (delComment_mem_cascadeOps e s p h1 he) rfl
  · apply List.filter_eq_nil_iff.2
    intro p hp
    obtain ⟨h1, h2⟩ := commitBatch_attendees_mem _ _ p hp
    simp only [decide_eq_true_eq]
    intro he
    exact h2 p.1.1 p.1.2 (delAttendee_mem_cascadeOps e s p h1 he) rfl

/-- Database used to exercise the cascading delete: event `e1` (created
by `u1`) with one comment and one attendee, plus a comment under another
event. -/
def c1Store : Store where
  users := [("u1", ⟨"Ana", "a@x.com", "h1", "user", "t0"⟩)]
  events := [("e1", ⟨"Fiesta", "2025-01-01", "GT", "d", "u1", "Ana", "t0"⟩)]
  comments := [(("e1", "c1"), ⟨"u2", "Beto", "hola", some 5, "t1", none⟩),
    (("e2", "c9"), ⟨"u3", "Caro", "otro", none, "t1", none⟩)]
  attendees := [(("e1", "u2"), ⟨"u2", "Beto", true, "t2"⟩)]

/-- Witness: the creator's delete of `e1` on `c1Store` commits the cascade
and leaves no trace of the event. -/
theorem deleteEvent_cascade_atomic_witness :
    deleteEvent "u1" "e1" true c1Store =
      Except.ok (commitBatch (cascadeOps "e1" c1Store) c1Store) ∧
    getA "e1" (commitBatch (cascadeOps "e1" c1Store) c1Store).events = none ∧
    (commitBatch (cascadeOps "e1" c1Store) c1Store).comments.filter
      (fun p => decide (p.1.1 = "e1")) = [] ∧
    (commitBatch (cascadeOps "e1" c1Store) c1Store).attendees.filter
      (fun p => decide (p.1.1 = "e1")) = [] := by
  have h : deleteEvent "u1" "e1" true c1Store =
      Except.ok (commitBatch (cascadeOps "e1" c1Store) c1Store) := by rfl
  have hmain := deleteEvent_cascade_atomic "u1" "e1" true c1Store _ h
  exact ⟨h, hmain.2.1, hmain.2.2.1, hmain.2.2.2⟩

/-- A sequence of `confirm` calls by the same user on the same event, one
per timestamp. -/
def confirmSeq (uid eventId : String) (times : List String) (s : Store) : Store :=
  times.foldl (fun st t => confirmAttend uid eventId t st) s

theorem confirmSeq_countKey (uid eventId : String) (times : List String)
    (hne : times ≠ []) (s : Store) :
    countKey (eventId, uid) (confirmSeq uid eventId times s).attendees = 1 := by
  induction times generalizing s with
  | nil => exact absurd rfl hne
  | cons t rest ih =>
    cases rest with
    | nil =>
      simp only [confirmSeq, List.foldl_cons, List.foldl_nil, confirmAttend]
      exact countKey_setA_self _ _ _
    | cons t2 rest2 =>
      simp only [confirmSeq, List.foldl_cons] at ih ⊢
      exact ih (by simp) _

/-- C2: the attendance record is keyed by the user id.  A single
`confirm` leaves the pair `(e,u)` with exactly one record — whose
`confirmed` is `true` and whose `updatedAt` is the call's timestamp,
regardless of what was stored before (pure upsert, no existence check) —
and any nonempty sequence of confirms still leaves exactly one record. -/
theorem confirmAttend_keyed_upsert (e u : String) :
    (∀ (s : Store) (now : String),
      ∃ r : Attendee,
        getA (e, u) (confirmAttend u e now s).attendees = some r ∧
        r.uid = u ∧ r.confirmed = true ∧ r.updatedAt = now) ∧
    (∀ (s : Store) (now : String),
      countKey (e, u) (confirmAttend u e now s).attendees = 1) ∧
    (∀ (s : Store) (times : List String), times ≠ [] →
      countKey (e, u) (confirmSeq u e times s).attendees = 1) := by
  refine ⟨?_, ?_, ?_⟩
  · intro s now
    simp only [confirmAttend]
    exact ⟨_, getA_setA_self _ _ _, rfl, rfl, rfl⟩
  · intro s now
    simp only [confirmAttend]
    exact countKey_setA_self _ _ _
  · intro s times hne
    exact confirmSeq_countKey u e times hne s

/-- Database with a stale attendance record for `(e1,u1)` that a
re-confirm must overwrite. -/
def c2Store : Store where
  users := [("u1", ⟨"Ana", "a@x.com", "h1", "user", "t0"⟩)]
  events := []
  comments := []
  attendees := [(("e1", "u1"), ⟨"u1", "Ana", true, "t1"⟩)]

/-- Witness: two successive confirms on a store that already held a
record for the pair still leave exactly one record. -/
theorem confirmAttend_keyed_upsert_witness :
    (["t2", "t3"] ≠ ([] : List String)) ∧
    countKey ("e1", "u1") (confirmSeq "u1" "e1" ["t2", "t3"] c2Store).attendees = 1 :=
  ⟨by decide,
    (confirmAttend_keyed_upsert "e1" "u1").2.2 c2Store ["t2", "t3"] (by decide)⟩

theorem ratingsOf_length_countP (e : String) (s : Store) :
    (ratingsOf e s).length = s.comments.countP
      (fun p => decide (p.1.1 = e ∧ p.2.rating ≠ none ∧ p.2.rating ≠ some 0)) := by
  unfold ratingsOf
  rw [List.filterMap_map, List.length_filterMap_eq_countP, List.countP_filter]
  apply List.countP_congr
  intro p _
  cases hr : p.2.rating with
  | none => by_cases h1 : p.1.1 = e <;> simp [Function.comp, hr, h1]
  | some v =>
    by_cases h0 : v = 0 <;> by_cases h1 : p.1.1 = e <;>
      simp [Function.comp, hr, h0, h1]

/-- Comments whose ratings satisfy `[3, 5]` under `e1` (with a `0` rating
and a `null` rating alongside, and other events' ratings that must not
leak in), only falsy ratings under `e3`. -/
def c3Store : Store where
  users := []
  events := []
  comments :=
    [(("e1", "c1"), ⟨"u1", "A", "x", some 3, "t", none⟩),
     (("e1", "c2"), ⟨"u2", "B", "x", some 5, "t", none⟩),
     (("e1", "c3"), ⟨"u3", "C", "x", some 0, "t", none⟩),
     (("e1", "c4"), ⟨"u4", "D", "x", none, "t", none⟩),
     (("e2", "c5"), ⟨"u5", "E", "x", some 1, "t", none⟩),
     (("e3", "c6"), ⟨"u6", "F", "x", none, "t", none⟩),
     (("e3", "c7"), ⟨"u7", "G", "x", some 0, "t", none⟩)]
  attendees := []

/-- C3: the count returned by `averageRating` is exactly the number of
comments of the event whose rating is truthy (non-`null` and non-`0`);
the average times the count is the sum of exactly those ratings; a zero
count forces the result `(0, 0)` (never an undefined average); and over
the ratings `[3, 5, 0, null]` of `e1` in `c3Store` the result is
`(4, 2)` — the `0` rating is excluded from both the average and the
count. -/
theorem averageRating_truthy_ratings :
    (∀ (s : Store) (e : String),
      (averageRating e s).2 = s.comments.countP
        (fun p => decide (p.1.1 = e ∧ p.2.rating ≠ none ∧ p.2.rating ≠ some 0))) ∧
    (∀ (s : Store) (e : String),
      (averageRating e s).1 * ((averageRating e s).2 : ℚ) =
        ((ratingsOf e s).map (fun x => (x : ℚ))).sum) ∧
    (∀ (s : Store) (e : String), (averageRating e s).2 = 0 → averageRating e s = (0, 0)) ∧
    averageRating "e1" c3Store = (4, 2) := by
  refine ⟨?_, ?_, ?_, ?_⟩
  · intro s e
    unfold averageRating
    by_cases h : (ratingsOf e s).length = 0
    · simp only [if_pos h]
      rw [← ratingsOf_length_countP]
      exact h.symm
    · simp only [if_neg h]
      exact ratingsOf_length_countP e s
  · intro s e
    unfold averageRating
    by_cases h : (ratingsOf e s).length = 0
    · have hnil : ratingsOf e s = [] := List.length_eq_zero.1 h
      simp [h, hnil]
    · simp only [if_neg h]
      rw [div_mul_cancel₀]
      exact Nat.cast_ne_zero.2 h
  · intro s e h
    unfold averageRating at h ⊢
    by_cases hl : (ratingsOf e s).length = 0
    · simp only [if_pos hl]
    · rw [if_neg hl] at h
      exact absurd h hl
  · have hr : ratingsOf "e1" c3Store = [3, 5] := by decide
    unfold averageRating
    rw [hr]
    norm_num

/-- Witness: `e3` in `c3Store` carries only a `null` and a `0` rating, so
the count is `0` and the endpoint answers `{average: 0, count: 0}`. -/
theorem averageRating_truthy_ratings_witness :
    (averageRating "e3" c3Store).2 = 0 ∧ averageRating "e3" c3Store = (0, 0) :=
  ⟨by decide, averageRating_truthy_ratings.2.2.1 c3Store "e3" (by decide)⟩

/-- C4: for an existing comment `c`, `updateComment` and `deleteComment`
succeed exactly when the caller is the comment's author (`c.uid`) or an
admin; an event creator who is neither gets `ForbiddenError` — event
ownership grants no rights over comments. -/
theorem comment_mutation_owner_or_admin (s : Store) (caller e cid : String)
    (cb : Option String) (rb : Option (Option Int)) (now : String) (c : Comment)
    (hc : getA (e, cid) s.comments = some c) :
    ((∃ r, updateComment caller e cid cb rb now s = .ok r) ↔
      (caller = c.uid ∨ roleOf caller s = some "admin")) ∧
    ((∃ s2, deleteComment caller e cid s = .ok s2) ↔
      (caller = c.uid ∨ roleOf caller s = some "admin")) ∧
    (∀ ev, getA e s.events = some ev → ev.creatorUid = caller → caller ≠ c.uid →
      roleOf caller s ≠ some "admin" →
      updateComment caller e cid cb rb now s = .error .forbidden ∧
      deleteComment caller e cid s = .error .forbidden) := by
  have hcond : (c.uid ≠ caller ∧ roleOf caller s ≠ some "admin") ↔
      ¬(caller = c.uid ∨ roleOf caller s = some "admin") := by
    constructor
    · rintro ⟨h1, h2⟩ (h | h)
      · exact h1 h.symm
      · exact h2 h
    · intro h
      exact ⟨fun he => h (Or.inl he.symm), fun hr => h (Or.inr hr)⟩
  refine ⟨?_, ?_, ?_⟩
  · unfold updateComment
    split
    · next heq =>
      rw [hc] at heq
      cases heq
    · next c' heq =>
      rw [hc] at heq
      cases heq
      by_cases hcnd : c.uid ≠ caller ∧ roleOf caller s ≠ some "admin"
      · rw [if_pos hcnd]
        constructor
        · rintro ⟨r, hr⟩
          simp at hr
        · intro hor
          exact absurd hor (hcond.1 hcnd)
      · rw [if_neg hcnd]
        constructor
        · intro _
          by_contra hor
          exact hcnd (hcond.2 hor)
        · intro _
          exact ⟨_, rfl⟩
  · unfold deleteComment
    split
    · next heq =>
      rw [hc] at heq
      cases heq
    · next c' heq =>
      rw [hc] at heq
      cases heq
      by_cases hcnd : c.uid ≠ caller ∧ roleOf caller s ≠ some "admin"
      · rw [if_pos hcnd]
        constructor
        · rintro ⟨s2, hs2⟩
          simp at hs2
        · intro hor
          exact absurd hor (hcond.1 hcnd)
      · rw [if_neg hcnd]
        constructor
        · intro _
          by_contra hor
          exact hcnd (hcond.2 hor)
        · intro _
          exact ⟨_, rfl⟩
  · intro ev _ _ hne hnadmin
    have hcnd : c.uid ≠ caller ∧ roleOf caller s ≠ some "admin" :=
      ⟨fun h => hne h.symm, hnadmin⟩
    constructor
    · unfold updateComment
      split
      · next heq =>
        rw [hc] at heq
        cases heq
      · next c' heq =>
        rw [hc] at heq
        cases heq
        rw [if_pos hcnd]
    · unfold deleteComment
      split
      · next heq =>
        rw [hc] at heq
        cases heq
      · next c' heq =>
        rw [hc] at heq
        cases heq
        rw [if_pos hcnd]

/-- Store in which event `e1` is created by `u1` while the comment `c1`
under `e1` was written by `u2`; `u1` is not an admin. -/
def c4Store : Store where
  users := [("u1", ⟨"Ana", "a@x.com", "h1", "user", "t0"⟩),
    ("u2", ⟨"Beto", "b@x.com", "h2", "user", "t0"⟩)]
  events := [("e1", ⟨"Fiesta", "2025-01-01", "GT", "d", "u1", "Ana", "t0"⟩)]
  comments := [(("e1", "c1"), ⟨"u2", "Beto", "hola", some 5, "t1", none⟩)]
  attendees := []

/-- Witness: the event creator `u1`, neither author of `c1` nor admin, is
forbidden from editing or deleting the comment. -/
theorem comment_mutation_owner_or_admin_witness :
    updateComment "u1" "e1" "c1" (some "edit") none "t2" c4Store =
      .error .forbidden ∧
    deleteComment "u1" "e1" "c1" c4Store = .error .forbidden :=
  (comment_mutation_owner_or_admin c4Store "u1" "e1" "c1" (some "edit") none "t2"
      ⟨"u2", "Beto", "hola", some 5, "t1", none⟩ (by decide)).2.2
    ⟨"Fiesta", "2025-01-01", "GT", "d", "u1", "Ana", "t0"⟩
    (by decide) (by decide) (by decide) (by decide)

/-- C5: the password route is owner-only with no admin override — the
very first check rejects every `caller ≠ target` with `ForbiddenError`
without ever reading a role; a wrong `oldPassword` yields `AuthError`
(401); and the stored hash is replaced only when the caller is the
target and the old password matches, in which case the new state is the
old one with just that user's `passwordHash` rehashed. -/
theorem changePassword_self_only (compareH : String → String → Bool)
    (hashF : String → String) (caller target : String)
    (oldP newP : Option String) (s : Store) :
    (caller ≠ target →
      changePassword compareH hashF caller target oldP newP s = .error .forbidden) ∧
    (∀ u, caller = target → truthy oldP = true → truthy newP = true →
      getA target s.users = some u →
      compareH (oldP.getD "") u.passwordHash = false →
      changePassword compareH hashF caller target oldP newP s =
        .error .unauthorized) ∧
    (∀ s2, changePassword compareH hashF caller target oldP newP s = .ok s2 →
      caller = target ∧ ∃ u, getA target s.users = some u ∧
        compareH (oldP.getD "") u.passwordHash = true ∧
        s2.users = setA target { u with passwordHash := hashF (newP.getD "") } s.users ∧
        s2.events = s.events ∧ s2.comments = s.comments ∧
        s2.attendees = s.attendees) := by
  refine ⟨?_, ?_, ?_⟩
  · intro h
    unfold changePassword
    rw [if_pos h]
  · intro u hct hto htn hu hcmp
    unfold changePassword
    rw [if_neg (fun hne => hne hct), if_neg (by simp [hto, htn])]
    split
    · next heq =>
      rw [hu] at heq
      cases heq
    · next u' heq =>
      rw [hu] at heq
      cases heq
      rw [if_pos (by simp [hcmp])]
  · intro s2 h
    unfold changePassword at h
    split at h
    · simp at h
    · next hct =>
      split at h
      · simp at h
      · refine ⟨not_not.1 hct, ?_⟩
        split at h
        · simp at h
        · next u heq =>
          split at h
          · simp at h
          · next hcmp =>
            injection h with h2
            subst h2
            exact ⟨u, heq, not_not.1 hcmp, rfl, rfl, rfl, rfl⟩

/-- Store for the password-policy witness: `root` is an admin, `u1` an
ordinary user whose stored hash matches `"old"` under the model hash
function. -/
def c5Store : Store where
  users := [("root", ⟨"Root", "r@x.com", "H:rootpw", "admin", "t0"⟩),
    ("u1", ⟨"Ana", "a@x.com", "H:old", "user", "t0"⟩)]
  events := []
  comments := []
  attendees := []

/-- Model bcrypt pair used only by witnesses: `hash p = "H:" ++ p`,
`compare p h ↔ h = "H:" ++ p`. -/
def modelHash (p : String) : String := "H:" ++ p

/-- Compare for `modelHash`. -/
def modelCompare (p h : String) : Bool := h == modelHash p

/-- Witness: the admin `root` is still forbidden from changing `u1`'s
password. -/
theorem changePassword_self_only_witness :
    changePassword modelCompare modelHash "root" "u1" (some "old") (some "new")
      c5Store = .error .forbidden :=
  (changePassword_self_only modelCompare modelHash "root" "u1" (some "old")
    (some "new") c5Store).1 (by decide)

/-- C6: with no attendance record for `(e,u)`, `cancel` succeeds and
leaves the store unchanged (idempotent no-op) and `status` answers
`(false, none)` — `{confirmed:false}` and nothing else; with a record
present, `status` returns the stored record together with its boolean
`confirmed` field; and after a `cancel` the record is always gone. -/
theorem attendance_cancel_status (e u : String) (s : Store) :
    (getA (e, u) s.attendees = none →
      cancelAttend u e s = s ∧ attendStatus e u s = (false, none)) ∧
    (∀ r, getA (e, u) s.attendees = some r →
      attendStatus e u s = (r.confirmed, some r)) ∧
    getA (e, u) (cancelAttend u e s).attendees = none := by
  refine ⟨?_, ?_, ?_⟩
  · intro h
    constructor
    · unfold cancelAttend
      rw [delA_of_absent _ _ h]
    · unfold attendStatus
      rw [h]
  · intro r h
    unfold attendStatus
    rw [h]
  · unfold cancelAttend
    exact getA_delA_self _ _

/-- Store with one attendance record, for the cancel/status witness. -/
def c6Store : Store where
  users := []
  events := []
  comments := []
  attendees := [(("e1", "u1"), ⟨"u1", "Ana", true, "t1"⟩)]

/-- Witness: `u2` has no record under `e1`, so cancel is a no-op and
status answers `(false, none)`; `u1`'s stored record is returned whole. -/
theorem attendance_cancel_status_witness :
    (cancelAttend "u2" "e1" c6Store = c6Store ∧
      attendStatus "e1" "u2" c6Store = (false, none)) ∧
    attendStatus "e1" "u1" c6Store = (true, some ⟨"u1", "Ana", true, "t1"⟩) :=
  ⟨(attendance_cancel_status "e1" "u2" c6Store).1 (by decide),
    (attendance_cancel_status "e1" "u1" c6Store).2.1 ⟨"u1", "Ana", true, "t1"⟩
      (by decide)⟩

/-- C7: a successful `update` of an existing event overwrites exactly the
truthy supplied fields among title/date/location/description and leaves
every other field — in particular `creatorUid`, `creatorName`,
`createdAt` — untouched; the rest of the store is untouched too. -/
theorem updateEvent_partial_frame (caller id : String)
    (title date location description : Option String) (s : Store)
    (ev : Event) (hev : getA id s.events = some ev)
    (ev' : Event) (s' : Store)
    (h : updateEvent caller id title date location description s = .ok (ev', s')) :
    ev'.creatorUid = ev.creatorUid ∧ ev'.creatorName = ev.creatorName ∧
    ev'.createdAt = ev.createdAt ∧
    (truthy title = false → ev'.title = ev.title) ∧
    (truthy title = true → ev'.title = title.getD "") ∧
    (truthy date = false → ev'.date = ev.date) ∧
    (truthy date = true → ev'.date = date.getD "") ∧
    (truthy location = false → ev'.location = ev.location) ∧
    (truthy location = true → ev'.location = location.getD "") ∧
    (truthy description = false → ev'.description = ev.description) ∧
    (truthy description = true → ev'.description = description.getD "") ∧
    getA id s'.events = some ev' ∧
    s'.users = s.users ∧ s'.comments = s.comments ∧ s'.attendees = s.attendees := by
  unfold updateEvent at h
  split at h
  · next heq =>
    rw [hev] at heq
    cases heq
  · next ev0 heq =>
    rw [hev] at heq
    cases heq
    split at h
    · simp at h
    · injection h with h2
      injection h2 with hx hy
      subst hx
      subst hy
      refine ⟨?_, ?_, ?_, ?_, ?_, ?_, ?_, ?_, ?_, ?_, ?_, ?_, rfl, rfl, rfl⟩
      · split_ifs <;> rfl
      · split_ifs <;> rfl
      · split_ifs <;> rfl
      · intro ht
        split_ifs <;> simp_all
      · intro ht
        split_ifs <;> simp_all
      · intro ht
        split_ifs <;> simp_all
      · intro ht
        split_ifs <;> simp_all
      · intro ht
        split_ifs <;> simp_all
      · intro ht
        split_ifs <;> simp_all
      · intro ht
        split_ifs <;> simp_all
      · intro ht
        split_ifs <;> simp_all
      · exact getA_setA_self _ _ _

/-- Store with one event for the partial-update witness. -/
def c7Store : Store where
  users := [("u1", ⟨"Ana", "a@x.com", "h1", "user", "t0"⟩)]
  events := [("e1", ⟨"Old", "2025-01-01", "GT", "d", "u1", "Ana", "t0"⟩)]
  comments := []
  attendees := []

/-- Witness: updating only the title of `e1` keeps `creatorUid` (and the
untouched `date`) of the stored event. -/
theorem updateEvent_partial_frame_witness :
    (⟨"New", "2025-01-01", "GT", "d", "u1", "Ana", "t0"⟩ : Event).creatorUid =
      (⟨"Old", "2025-01-01", "GT", "d", "u1", "Ana", "t0"⟩ : Event).creatorUid ∧
    (⟨"New", "2025-01-01", "GT", "d", "u1", "Ana", "t0"⟩ : Event).title = "New" := by
  have hfr := updateEvent_partial_frame "u1" "e1" (some "New") none none none
    c7Store ⟨"Old", "2025-01-01", "GT", "d", "u1", "Ana", "t0"⟩ (by rfl)
    ⟨"New", "2025-01-01", "GT", "d", "u1", "Ana", "t0"⟩
    ⟨c7Store.users,
      setA "e1" ⟨"New", "2025-01-01", "GT", "d", "u1", "Ana", "t0"⟩ c7Store.events,
      c7Store.comments, c7Store.attendees⟩ (by rfl)
  exact ⟨hfr.1, hfr.2.2.2.2.1 (by decide)⟩

theorem lowerStr_eq_empty_iff (q : String) : lowerStr q = "" ↔ q = "" := by
  cases q with
  | mk data =>
    constructor
    · intro h
      have hd : (lowerStr ⟨data⟩).data = [] := by rw [h]
      simp only [lowerStr] at hd
      have : data = [] := List.map_eq_nil_iff.1 hd
      rw [this]
    · intro h
      rw [h]
      rfl

/-- Two events for the search example: only the first matches "conf". -/
def c8Store : Store where
  users := []
  events :=
    [("e1", ⟨"Conference A", "2025-01-01", "GT", "an event", "u1", "Ana", "t0"⟩),
     ("e2", ⟨"Workshop", "2025-02-02", "GT", "hands-on", "u1", "Ana", "t0"⟩)]
  comments := []
  attendees := []

/-- C8: for every nonempty query, search returns exactly the stored
events whose lowercased title or description contains the lowercased
query as a substring; searching "conf" over "Conference A"/"Workshop"
returns only the former. -/
theorem searchEvents_substring_ci :
    (∀ (q : String) (s : Store), q ≠ "" →
      ∃ l, searchEvents (some q) s = .ok l ∧
        ∀ p : String × Event, p ∈ l ↔ p ∈ s.events ∧
          (strIncludes (lowerStr p.2.title) (lowerStr q) = true ∨
           strIncludes (lowerStr p.2.description) (lowerStr q) = true)) ∧
    searchEvents (some "conf") c8Store =
      .ok [("e1", ⟨"Conference A", "2025-01-01", "GT", "an event", "u1", "Ana",
        "t0"⟩)] := by
  constructor
  · intro q s hq
    unfold searchEvents
    have hne : ¬ lowerStr ((some q).getD "") = "" := by
      simp only [Option.getD_some]
      exact fun h => hq ((lowerStr_eq_empty_iff q).1 h)
    rw [if_neg hne]
    refine ⟨_, rfl, ?_⟩
    intro p
    simp [List.mem_filter]
  · rfl

/-- Witness: the general search characterization applied to the "conf"
example store. -/
theorem searchEvents_substring_ci_witness :
    ("conf" ≠ "") ∧
    ∃ l, searchEvents (some "conf") c8Store = .ok l ∧
      ∀ p : String × Event, p ∈ l ↔ p ∈ c8Store.events ∧
        (strIncludes (lowerStr p.2.title) (lowerStr "conf") = true ∨
         strIncludes (lowerStr p.2.description) (lowerStr "conf") = true) :=
  ⟨by decide, searchEvents_substring_ci.1 "conf" c8Store (by decide)⟩

/-- C9: for an admin caller, `GET /admin/users` maps every stored user
document to a response entry that spreads the whole document — the
`passwordHash` field included — while the public profile route returns
only the five public fields (its response type has no hash field at
all). -/
theorem adminListUsers_exposes_passwordHash (s : Store) (caller : String)
    (hadmin : roleOf caller s = some "admin") :
    (∃ l, adminListUsers caller s = .ok l ∧
      l = s.users.map (fun p =>
        (⟨p.1, p.2.username, p.2.email, p.2.passwordHash, p.2.role,
          p.2.createdAt⟩ : AdminUserView)) ∧
      ∀ p ∈ s.users,
        (⟨p.1, p.2.username, p.2.email, p.2.passwordHash, p.2.role,
          p.2.createdAt⟩ : AdminUserView) ∈ l) ∧
    (∀ uid u, getA uid s.users = some u →
      getPublicProfile uid s =
        .ok ⟨uid, u.username, u.email,
          if u.role = "" then "user" else u.role, u.createdAt⟩) := by
  constructor
  · unfold adminListUsers
    rw [if_neg (by simp [hadmin])]
    refine ⟨_, rfl, rfl, ?_⟩
    intro p hp
    exact List.mem_map.2 ⟨p, hp, rfl⟩
  · intro uid u hu
    unfold getPublicProfile
    rw [hu]

/-- Store with an admin and an ordinary user for the admin-listing
witness. -/
def c9Store : Store where
  users := [("root", ⟨"Root", "r@x.com", "HR", "admin", "t0"⟩),
    ("u1", ⟨"Ana", "a@x.com", "HA", "user", "t0"⟩)]
  events := []
  comments := []
  attendees := []

/-- Witness: the admin listing on `c9Store` contains `u1`'s entry with
the stored hash `"HA"`. -/
theorem adminListUsers_exposes_passwordHash_witness :
    roleOf "root" c9Store = some "admin" ∧
    ∃ l, adminListUsers "root" c9Store = .ok l ∧
      l = c9Store.users.map (fun p =>
        (⟨p.1, p.2.username, p.2.email, p.2.passwordHash, p.2.role,
          p.2.createdAt⟩ : AdminUserView)) ∧
      ∀ p ∈ c9Store.users,
        (⟨p.1, p.2.username, p.2.email, p.2.passwordHash, p.2.role,
          p.2.createdAt⟩ : AdminUserView) ∈ l :=
  ⟨by decide,
    (adminListUsers_exposes_passwordHash c9Store "root" (by decide)).1⟩

/-- C10: `POST /events` reads `creatorUid` from the request body and only
checks that it names an existing user — the authenticated caller plays
no part, so the handler's result is independent of the caller and the
event is created attributed to the body's `creatorUid`, whoever it is. -/
theorem createEvent_trusts_body_creatorUid (caller cUid now newId : String)
    (title date location description : Option String) (s : Store) (u : User)
    (hu : getA cUid s.users = some u)
    (ht : truthy title = true) (hd : truthy date = true)
    (hl : truthy location = true) (hde : truthy description = true)
    (hcu : cUid ≠ "") :
    (∀ c1 c2 : String,
      createEvent c1 title date location description (some cUid) now newId s =
      createEvent c2 title date location description (some cUid) now newId s) ∧
    ∃ s2,
      createEvent caller title date location description (some cUid) now newId s =
        .ok ((newId,
          ⟨title.getD "", date.getD "", location.getD "", description.getD "",
            cUid, if u.username = "" then "Desconocido" else u.username, now⟩),
          s2) := by
  constructor
  · intro c1 c2
    rfl
  · unfold createEvent
    rw [if_neg (not_not.2 ⟨ht, hd, hl, hde, by simp [truthy, hcu]⟩)]
    simp only [Option.getD_some]
    split
    · next heq =>
      rw [hu] at heq
      cases heq
    · next u' heq =>
      rw [hu] at heq
      cases heq
      exact ⟨_, rfl⟩

/-- Two ordinary users; `attacker` will create an event attributed to
`victim`. -/
def c10Store : Store where
  users := [("victim", ⟨"Vic", "v@x.com", "HV", "user", "t0"⟩),
    ("attacker", ⟨"Atk", "k@x.com", "HK", "user", "t0"⟩)]
  events := []
  comments := []
  attendees := []

/-- Witness: `attacker`'s create call with `creatorUid = "victim"`
succeeds and the stored event is owned by `victim`. -/
theorem createEvent_trusts_body_creatorUid_witness :
    ∃ s2,
      createEvent "attacker" (some "Party") (some "2025-01-01") (some "GT")
          (some "desc") (some "victim") "t1" "e9" c10Store =
        .ok (("e9",
          ⟨"Party", "2025-01-01", "GT", "desc", "victim", "Vic", "t1"⟩), s2) := by
  have hmain := createEvent_trusts_body_creatorUid "attacker" "victim" "t1" "e9"
    (some "Party") (some "2025-01-01") (some "GT") (some "desc") c10Store
    ⟨"Vic", "v@x.com", "HV", "user", "t0"⟩ (by decide) (by decide) (by decide)
    (by decide) (by decide) (by decide)
  exact hmain.2
